import Mathlib

/-!
# Verification of the win32 process-launching shim

Shallow embedding of `support/win32/Phutil.cpp`: the argument encoders
(`EscapeArgWin32`, `EncodeCommandLineWin32`, `EncodeCommandLineCmd`), the
builtin-name classification (`IsCmdBuiltin` over `kCmdBuiltins`), the
observable control flow of `CallProcess`, and the path-splitting helpers
(`SplitDrive`, `SplitPath`).  Wide strings (`wchar_t` sequences) are
modelled as `List Char`; the results of OS calls made by `CallProcess` are
an explicit oracle record.
-/

namespace Phutil

/-- A wide string (`wchar_t` sequence) modelled as a list of characters. -/
abbrev WStr := List Char

/-! ## Builtin classification (`kCmdBuiltins`, `IsCmdBuiltin`) -/

/-- Lower-casing of one character as `towlower` acts on the ASCII range,
which is the range the builtin table lives in. -/
def wlower (c : Char) : Char :=
  if 'A' ≤ c ∧ c ≤ 'Z' then Char.ofNat (c.toNat + 32) else c

/-- The strictly-less test `_wcsicmp a b < 0`: lexicographic comparison of
the lower-cased characters. -/
def wcsicmpLt : WStr → WStr → Bool
  | [], [] => false
  | [], _ :: _ => true
  | _ :: _, [] => false
  | x :: xs, y :: ys =>
    if wlower x = wlower y then wcsicmpLt xs ys else decide (wlower x < wlower y)

/-- Lexicographic strictly-less on already lower-cased strings; used to show
`wcsicmpLt` only depends on the lower-cased images of its arguments. -/
def wlowerLt : WStr → WStr → Bool
  | [], [] => false
  | [], _ :: _ => true
  | _ :: _, [] => false
  | x :: xs, y :: ys =>
    if x = y then wlowerLt xs ys else decide (x < y)

/-- The fixed table of cmd.exe builtin names, in the source's order (sorted
for the case-insensitive ordering). -/
def kCmdBuiltins : List WStr :=
  ["assoc", "break", "call", "cd", "chdir", "cls",
   "color", "copy", "date", "del", "dir", "dpath",
   "echo", "endlocal", "erase", "exit", "for", "ftype",
   "goto", "if", "keys", "md", "mkdir", "mklink",
   "move", "path", "pause", "popd", "prompt", "pushd",
   "rd", "rem", "ren", "rename", "rmdir", "set",
   "setlocal", "shift", "start", "time", "title", "type",
   "ver", "verify", "vol"].map String.data

/-- Model of `std::binary_search` over the builtin table with the `_wcsicmp`
comparator, modelled by its contract on a sorted range: some element of the
range is equivalent (neither strictly less nor strictly greater) to the
candidate.  Sortedness of the table under this ordering is proved below. -/
def IsCmdBuiltin (candidate : WStr) : Bool :=
  kCmdBuiltins.any fun b => !wcsicmpLt b candidate && !wcsicmpLt candidate b

/-- Sortedness of a table under a strict Boolean order: every adjacent
pair is strictly increasing.  This is the precondition `std::binary_search`
needs on `kCmdBuiltins`. -/
def isSortedBy (lt : WStr → WStr → Bool) : List WStr → Bool
  | [] => true
  | [_] => true
  | a :: b :: rest => lt a b && isSortedBy lt (b :: rest)

/-- The two-valued target classification of the spec. -/
inductive TargetKind where
  | ShellBuiltin
  | NativeExecutable
  deriving DecidableEq

/-- Classification of `argv[0]`, as performed at the top of `CallProcess`. -/
def classify (argv0 : WStr) : TargetKind :=
  if IsCmdBuiltin argv0 then .ShellBuiltin else .NativeExecutable

/-! ## The native-parser quoting rule (`EscapeArgWin32`) -/

/-- Loop body of `EscapeArgWin32`: `span` is the pending text accumulated
since `span_begin`, `n` the current count of consecutive backslashes.  On a
literal quote the span is flushed, `n + 1` extra backslashes are emitted,
and the new span starts at the quote itself; at the end of the argument the
span is flushed and `n` extra backslashes are emitted. -/
def escapeLoop : WStr → WStr → Nat → WStr
  | [], span, n => span ++ List.replicate n '\\'
  | c :: rest, span, n =>
    if c = '\\' then escapeLoop rest (span ++ [c]) (n + 1)
    else if c = '"' then span ++ List.replicate (n + 1) '\\' ++ escapeLoop rest [c] 0
    else escapeLoop rest (span ++ [c]) 0

/-- The function `EscapeArgWin32`: wrap the argument in double quotes, running the
span/backslash-count loop over the body. -/
def EscapeArgWin32 (arg : WStr) : WStr :=
  '"' :: (escapeLoop arg [] 0 ++ ['"'])

/-- Closed form of the escape body used in proofs: each character is
emitted in order, with `n + 1` backslashes inserted before a literal quote
preceded by a run of `n` backslashes, and `n` extra backslashes appended
after a trailing run of `n`. -/
def escBody : WStr → Nat → WStr
  | [], n => List.replicate n '\\'
  | c :: rest, n =>
    if c = '\\' then '\\' :: escBody rest (n + 1)
    else if c = '"' then List.replicate (n + 1) '\\' ++ '"' :: escBody rest 0
    else c :: escBody rest 0

/-! ## The native command-line encoder (`EncodeCommandLineWin32`) -/

/-- The character set `kEscapeSet` of `EncodeCommandLineWin32`: characters
special to `CommandLineToArgvW` plus the Cygwin glob characters. -/
def kEscapeSetWin32 : WStr := [' ', '"', '~', '@', '?', '*', '[']

/-- The test `wcspbrk(arg, cs) != nullptr`: some character of `arg` is in `cs`. -/
def hitsSet (cs arg : WStr) : Bool :=
  arg.any fun c => decide (c ∈ cs)

/-- One argument of the native encoder: emitted verbatim when non-empty and
free of special characters, quoted through `EscapeArgWin32` otherwise. -/
def encodeArgWin32 (a : WStr) : WStr :=
  if a ≠ [] ∧ hitsSet kEscapeSetWin32 a = false then a else EscapeArgWin32 a

/-- The encoder loop after the first argument: a space before every further
token. -/
def encodeTailWin32 : List WStr → WStr
  | [] => []
  | a :: rest => ' ' :: encodeArgWin32 a ++ encodeTailWin32 rest

/-- The function `EncodeCommandLineWin32`: tokens joined by single spaces, no leading or
trailing decoration. -/
def EncodeCommandLineWin32 : List WStr → WStr
  | [] => []
  | a :: rest => encodeArgWin32 a ++ encodeTailWin32 rest

/-! ## The shell command-line encoder (`EncodeCommandLineCmd`) -/

/-- The shell metacharacter test of `EncodeCommandLineCmd`. -/
def isCmdMetachar (c : Char) : Bool :=
  decide (c = '(' ∨ c = ')' ∨ c = '%' ∨ c = '!' ∨ c = '^' ∨ c = '"' ∨
          c = '<' ∨ c = '>' ∨ c = '&' ∨ c = '|')

/-- The reduced escape set of `EncodeCommandLineCmd`: only the characters
special to `CommandLineToArgvW`. -/
def kEscapeSetCmd : WStr := [' ', '"']

/-- Argument selection in `EncodeCommandLineCmd`: verbatim when non-empty
and free of space and double-quote, `EscapeArgWin32` otherwise. -/
def cmdChooseArg (a : WStr) : WStr :=
  if a ≠ [] ∧ hitsSet kEscapeSetCmd a = false then a else EscapeArgWin32 a

/-- Caret escaping of a single character: a caret before every shell
metacharacter, and additionally before spaces when `escSpace` is set (the
first argument). -/
def caretChar (escSpace : Bool) (c : Char) : WStr :=
  if isCmdMetachar c = true ∨ (escSpace = true ∧ c = ' ') then ['^', c] else [c]

/-- The per-argument caret pass of `EncodeCommandLineCmd`. -/
def caretArg (escSpace : Bool) (a : WStr) : WStr :=
  (a.map (caretChar escSpace)).flatten

/-- The argument loop of `EncodeCommandLineCmd`: a space before every
token, space-escaping only for the first. -/
def encodeTailCmd : Bool → List WStr → WStr
  | _, [] => []
  | first, a :: rest => ' ' :: caretArg first (cmdChooseArg a) ++ encodeTailCmd false rest

/-- The function `EncodeCommandLineCmd`: the shell stub followed by the caret-escaped,
natively quoted arguments. -/
def EncodeCommandLineCmd (args : List WStr) : WStr :=
  "cmd.exe /D /C".data ++ encodeTailCmd true args

/-- An indexed map, written out so the index plays the role of `i` in the
source's argument loop. -/
def mapWithIndex (f : Nat → WStr → WStr) : Nat → List WStr → List WStr
  | _, [] => []
  | i, a :: rest => f i a :: mapWithIndex f (i + 1) rest

/-- Modelled from the spec: `encodeForShell` as §4.1 words it — the shell
stub, then each argument "first quoted via the native rule above" (that is
`encodeArgWin32`, with the full native escape set) and then caret-escaped,
spaces included for the first argument only. -/
def specEncodeForShellNativeRule (args : List WStr) : WStr :=
  "cmd.exe /D /C".data ++
    (mapWithIndex (fun i a => ' ' :: caretArg (i == 0) (encodeArgWin32 a)) 0 args).flatten

/-- The same shape with the quoting the code actually performs: the
verbatim test uses only the reduced set `kEscapeSetCmd` (space and
double-quote), not the full native escape set. -/
def specEncodeForShellCmdRule (args : List WStr) : WStr :=
  "cmd.exe /D /C".data ++
    (mapWithIndex (fun i a => ' ' :: caretArg (i == 0) (cmdChooseArg a)) 0 args).flatten

/-! ## The native-argv decoding grammar -/

/-- Modelled from the spec: the native-argv decoding grammar, the
convention (documented for `CommandLineToArgvW` and the C runtime, and in
the article the source cites) by which the spawned program re-tokenizes its
command line.  Arguments are separated by runs of space or tab outside
quotes; `2n` backslashes before a double quote yield `n` backslashes and
toggle quoted mode; `2n + 1` backslashes before a double quote yield `n`
backslashes and a literal quote; backslashes not before a quote are
literal.  `cur` is the argument being built, `pending` the unresolved
backslash run, `inQ` quoted mode, `started` whether the current argument
exists (so `\x22\x22` yields an empty argument). -/
def decodeLoop : WStr → WStr → Nat → Bool → Bool → List WStr
  | [], cur, pending, _, started =>
    if started then [cur ++ List.replicate pending '\\'] else []
  | c :: rest, cur, pending, inQ, started =>
    if c = '\\' then decodeLoop rest cur (pending + 1) inQ true
    else if c = '"' then
      if pending % 2 = 1 then
        decodeLoop rest (cur ++ List.replicate (pending / 2) '\\' ++ ['"']) 0 inQ true
      else
        decodeLoop rest (cur ++ List.replicate (pending / 2) '\\') 0 (!inQ) true
    else if (c = ' ' ∨ c = '\t') ∧ inQ = false then
      if started then
        (cur ++ List.replicate pending '\\') :: decodeLoop rest [] 0 false false
      else decodeLoop rest [] 0 false false
    else decodeLoop rest (cur ++ List.replicate pending '\\' ++ [c]) 0 inQ true

/-- Decoding a full command line under the native-argv grammar. -/
def decodeCommandLineWin32 (s : WStr) : List WStr :=
  decodeLoop s [] 0 false false

/-! ## The process supervisor (`CallProcess`) -/

/-- The observable outcome of `CallProcess`: a fatal diagnostic through
`Die` (exit status 1), the recoverable not-found path (stderr line and
return value 127), or the child's exit code. -/
inductive ProcOutcome where
  | fatal (msg : WStr)
  | notFound (prog : WStr)
  | exited (code : Nat)
  deriving DecidableEq

/-- Results of the OS calls `CallProcess` makes, as an oracle record. -/
structure OsEnv where
  queryOk : Bool
  queryLenOk : Bool
  jobNonNull : Bool
  setInfoOk : Bool
  ctrlOk : Bool
  spawnOk : Bool
  spawnFileNotFound : Bool
  getExitOk : Bool
  childExitCode : Nat

/-- The control flow of `CallProcess`: the empty-argv check, the
classification and encoding, the job-object configuration, the console
handler, the spawn with its not-found special case, and the exit-code
query. -/
def CallProcess (env : OsEnv) (argv : List WStr) : ProcOutcome :=
  match argv with
  | [] => .fatal "No arguments specified".data
  | argv0 :: rest =>
    let _cmd :=
      if IsCmdBuiltin argv0 then EncodeCommandLineCmd (argv0 :: rest)
      else EncodeCommandLineWin32 (argv0 :: rest)
    if env.queryOk = false ∨ env.queryLenOk = false ∨ env.jobNonNull = false then
      .fatal "Job information querying failed".data
    else if env.setInfoOk = false then
      .fatal "Job information setting failed".data
    else if env.ctrlOk = false then
      .fatal "control handler setting failed".data
    else if env.spawnOk = false then
      if env.spawnFileNotFound = true then .notFound argv0
      else .fatal "Unable to create process".data
    else if env.getExitOk = false then
      .fatal "Failed to get exit code of process".data
    else .exited env.childExitCode

/-- What the launcher writes to its standard error stream for an outcome:
`Die` prefixes `FATAL: ` and ends the line; the not-found path names the
missing program. -/
def stderrOf : ProcOutcome → WStr
  | .fatal m => "FATAL: ".data ++ m ++ ['\n']
  | .notFound p => p ++ ": not found\n".data
  | .exited _ => []

/-- The integer status the launcher process ends with: `Die` exits with 1,
the not-found path returns 127, otherwise the child's code is forwarded. -/
def returnValue : ProcOutcome → Nat
  | .fatal _ => 1
  | .notFound _ => 127
  | .exited c => c

/-- Whether the outcome terminated the launcher through `Die`. -/
def isFatal : ProcOutcome → Bool
  | .fatal _ => true
  | _ => false

/-! ## Path splitting (`SplitDrive`, `SplitPath`) -/

/-- Model of `std::wstring::find(single-character-string, start)`. -/
def findFrom (s : WStr) (c : Char) (start : Nat) : Option Nat :=
  ((s.drop start).findIdx? fun x => x = c).map fun j => j + start

/-- The backslash-normalized copy `normp` of the path, on which
`SplitDrive` does its prefix matching. -/
def normSlashes (path : WStr) : WStr :=
  path.map fun ch => if ch = '/' then '\\' else ch

/-- The function `SplitDrive`: split a pathname into drive/UNC sharepoint and relative
path.  Prefix matching runs over the backslash-normalized copy, but the
returned pieces are substrings of the original `path`. -/
def SplitDrive (path : WStr) : WStr × WStr :=
  if 2 ≤ path.length then
    if (normSlashes path).take 2 = ['\\', '\\'] ∧
        ((normSlashes path).drop 2).take 1 ≠ ['\\'] then
      match findFrom (normSlashes path) '\\' 2 with
      | none => ([], path)
      | some index =>
        match findFrom (normSlashes path) '\\' (index + 1) with
        | none => (path, [])
        | some index2 =>
          if index2 = index + 1 then ([], path)
          else (path.take index2, path.drop index2)
    else if (normSlashes path).get? 1 = some ':' then (path.take 2, path.drop 2)
    else ([], path)
  else ([], path)

/-- Membership in the separator set `L"/\\"`. -/
def isSep (c : Char) : Bool := c == '\\' || c == '/'

/-- The function `SplitPath`: split off the last pathname component.  The split index
`i` is the source's backwards while loop, phrased as the length of the
separator-free suffix; the head then loses its trailing separators unless
it is all separators. -/
def SplitPath (path : WStr) : WStr × WStr :=
  let dp := SplitDrive path
  let d := dp.1
  let p := dp.2
  let i := p.length - (p.reverse.takeWhile fun c => !isSep c).length
  let head := p.take i
  let tail := p.drop i
  let head2 := if head.all isSep then head else (head.reverse.dropWhile isSep).reverse
  (d ++ head2, tail)

/-! ## Characterization of the escape body -/

theorem escapeLoop_eq_escBody : ∀ (a span : WStr) (n : Nat),
    escapeLoop a span n = span ++ escBody a n := by
  intro a
  induction a with
  | nil => intro span n; simp [escapeLoop, escBody]
  | cons c t ih =>
    intro span n
    by_cases hb : c = '\\'
    · subst hb; simp [escapeLoop, escBody, ih, List.append_assoc]
    · by_cases hq : c = '"'
      · subst hq; simp [escapeLoop, escBody, hb, ih, List.append_assoc]
      · simp [escapeLoop, escBody, hb, hq, ih, List.append_assoc]

theorem escBody_bs (t : WStr) (n : Nat) :
    escBody ('\\' :: t) n = '\\' :: escBody t (n + 1) := by
  simp [escBody]

theorem escBody_quote (t : WStr) (n : Nat) :
    escBody ('"' :: t) n = List.replicate (n + 1) '\\' ++ '"' :: escBody t 0 := by
  have hne : ¬ ('"' : Char) = '\\' := by decide
  simp [escBody, hne]

theorem escBody_other (c : Char) (t : WStr) (n : Nat) (hb : c ≠ '\\') (hq : c ≠ '"') :
    escBody (c :: t) n = c :: escBody t 0 := by
  simp [escBody, hb, hq]

theorem escBody_append : ∀ (u : WStr) (n : Nat) (w : WStr),
    (u = [] → n = 0) → u.getLast? ≠ some '\\' →
    escBody (u ++ w) n = escBody u n ++ escBody w 0 := by
  intro u
  induction u with
  | nil =>
    intro n w hn _
    simp [hn rfl, escBody]
  | cons c t ih =>
    intro n w _ hlast
    have hlast' : t.getLast? ≠ some '\\' := by
      cases t with
      | nil => simp
      | cons b l => rwa [List.getLast?_cons_cons] at hlast
    by_cases hb : c = '\\'
    · subst hb
      have ht : t ≠ [] := by
        intro h; subst h; simp at hlast
      rw [List.cons_append, escBody_bs, escBody_bs,
        ih (n + 1) w (fun h => absurd h ht) hlast', List.cons_append]
    · by_cases hq : c = '"'
      · subst hq
        rw [List.cons_append, escBody_quote, escBody_quote,
          ih 0 w (fun _ => rfl) hlast']
        simp [List.append_assoc]
      · rw [List.cons_append, escBody_other c _ n hb hq, escBody_other c _ n hb hq,
          ih 0 w (fun _ => rfl) hlast', List.cons_append]

theorem escBody_replicate : ∀ (k m : Nat),
    escBody (List.replicate k '\\') m
      = List.replicate k '\\' ++ List.replicate (m + k) '\\' := by
  intro k
  induction k with
  | zero => intro m; simp [escBody]
  | succ k ih =>
    intro m
    rw [List.replicate_succ, escBody_bs, ih]
    simp only [List.replicate_succ, List.cons_append]
    have h : m + 1 + k = m + (k + 1) := by omega
    rw [h]

theorem escBody_replicate_quote : ∀ (k : Nat) (v : WStr) (m : Nat),
    escBody (List.replicate k '\\' ++ '"' :: v) m
      = List.replicate k '\\' ++ List.replicate (m + k + 1) '\\' ++ '"' :: escBody v 0 := by
  intro k
  induction k with
  | zero =>
    intro v m
    simp [escBody_quote]
  | succ k ih =>
    intro v m
    rw [List.replicate_succ, List.cons_append, escBody_bs, ih]
    simp only [List.replicate_succ, List.cons_append]
    have h : m + 1 + k = m + (k + 1) := by omega
    rw [h]

/-- C2 counterexample: for the argument `a\` (a trailing run of one
backslash), the quoted output is `"a\\"` — the trailing run appears doubled
before the closing quote, not as exactly one backslash as claimed. -/
theorem escapeArg_trailing_run_cex :
    EscapeArgWin32 ['a', '\\'] = ['"', 'a', '\\', '\\', '"'] ∧
    EscapeArgWin32 ['a', '\\'] ≠ ['"', 'a', '\\', '"'] := by decide

/-- C2 (amended): in the quoted escape path, a literal double quote
preceded by a maximal run of `n` backslashes is emitted as the escaped
prefix text followed by `2n + 1` backslashes and then the quote; a trailing
maximal run of `n` backslashes is emitted doubled — `2n` backslashes, the
explicit final append contributing `n` of them — immediately before the
closing quote. -/
theorem escapeArg_backslash_runs : ∀ (u v : WStr) (n : Nat),
    u.getLast? ≠ some '\\' →
    EscapeArgWin32 (u ++ List.replicate n '\\' ++ '"' :: v)
      = '"' :: (escBody u 0 ++ (List.replicate (2 * n + 1) '\\' ++ '"' :: escBody v 0) ++ ['"']) ∧
    EscapeArgWin32 (u ++ List.replicate n '\\')
      = '"' :: (escBody u 0 ++ List.replicate (2 * n) '\\' ++ ['"']) := by
  intro u v n hu
  constructor
  · have hrep : List.replicate (2 * n + 1) '\\'
        = List.replicate n '\\' ++ List.replicate (n + 1) '\\' := by
      rw [← List.replicate_add]
      congr 1
      omega
    rw [EscapeArgWin32, escapeLoop_eq_escBody, List.nil_append, List.append_assoc,
      escBody_append u 0 _ (fun _ => rfl) hu, escBody_replicate_quote, hrep]
    simp [List.append_assoc]
  · have hrep : List.replicate (2 * n) '\\'
        = List.replicate n '\\' ++ List.replicate (0 + n) '\\' := by
      rw [← List.replicate_add]
      congr 1
      omega
    rw [EscapeArgWin32, escapeLoop_eq_escBody, List.nil_append,
      escBody_append u 0 _ (fun _ => rfl) hu, escBody_replicate, hrep]

/-- C2 witness: the amended statement applied at `u = a`, `v = b`,
`n = 1`. -/
theorem escapeArg_backslash_runs_witness :
    (['a'] : WStr).getLast? ≠ some '\\' ∧
    (EscapeArgWin32 (['a'] ++ List.replicate 1 '\\' ++ '"' :: ['b'])
      = '"' :: (escBody ['a'] 0 ++ (List.replicate (2 * 1 + 1) '\\' ++ '"' :: escBody ['b'] 0) ++ ['"']) ∧
    EscapeArgWin32 (['a'] ++ List.replicate 1 '\\')
      = '"' :: (escBody ['a'] 0 ++ List.replicate (2 * 1) '\\' ++ ['"'])) :=
  ⟨by decide, escapeArg_backslash_runs ['a'] ['b'] 1 (by decide)⟩

/-! ## Stepping lemmas for the decoder -/

theorem decodeLoop_nil (cur : WStr) (p : Nat) (inQ : Bool) :
    decodeLoop [] cur p inQ true = [cur ++ List.replicate p '\\'] := by
  simp [decodeLoop]

theorem decodeLoop_bs (rest : WStr) (cur : WStr) (p : Nat) (inQ started : Bool) :
    decodeLoop ('\\' :: rest) cur p inQ started = decodeLoop rest cur (p + 1) inQ true := by
  simp [decodeLoop]

theorem decodeLoop_quote_even (rest : WStr) (cur : WStr) (p : Nat) (inQ started : Bool)
    (h : p % 2 = 0) :
    decodeLoop ('"' :: rest) cur p inQ started
      = decodeLoop rest (cur ++ List.replicate (p / 2) '\\') 0 (!inQ) true := by
  have hne : ¬ ('"' : Char) = '\\' := by decide
  simp [decodeLoop, hne, h]

theorem decodeLoop_quote_odd (rest : WStr) (cur : WStr) (p : Nat) (inQ started : Bool)
    (h : p % 2 = 1) :
    decodeLoop ('"' :: rest) cur p inQ started
      = decodeLoop rest (cur ++ List.replicate (p / 2) '\\' ++ ['"']) 0 inQ true := by
  have hne : ¬ ('"' : Char) = '\\' := by decide
  simp [decodeLoop, hne, h]

theorem decodeLoop_space (rest : WStr) (cur : WStr) (p : Nat) :
    decodeLoop (' ' :: rest) cur p false true
      = (cur ++ List.replicate p '\\') :: decodeLoop rest [] 0 false false := by
  have h1 : ¬ (' ' : Char) = '\\' := by decide
  have h2 : ¬ (' ' : Char) = '"' := by decide
  simp [decodeLoop, h1, h2]

theorem decodeLoop_other (c : Char) (rest : WStr) (cur : WStr) (p : Nat) (inQ started : Bool)
    (hb : c ≠ '\\') (hq : c ≠ '"') (hws : ¬((c = ' ' ∨ c = '\t') ∧ inQ = false)) :
    decodeLoop (c :: rest) cur p inQ started
      = decodeLoop rest (cur ++ List.replicate p '\\' ++ [c]) 0 inQ true := by
  simp [decodeLoop, hb, hq, hws]

theorem decode_run : ∀ (k : Nat) (rest cur : WStr) (p : Nat) (inQ : Bool),
    decodeLoop (List.replicate k '\\' ++ rest) cur p inQ true
      = decodeLoop rest cur (p + k) inQ true := by
  intro k
  induction k with
  | zero => intro rest cur p inQ; simp
  | succ k ih =>
    intro rest cur p inQ
    rw [List.replicate_succ, List.cons_append, decodeLoop_bs, ih]
    have h : p + 1 + k = p + (k + 1) := by omega
    rw [h]

theorem decode_escBody : ∀ (a tail cur : WStr) (n : Nat),
    decodeLoop (escBody a n ++ '"' :: tail) cur n true true
      = decodeLoop tail (cur ++ List.replicate n '\\' ++ a) 0 false true := by
  intro a
  induction a with
  | nil =>
    intro tail cur n
    have he : escBody [] n = List.replicate n '\\' := rfl
    rw [he, decode_run, decodeLoop_quote_even _ _ _ _ _ (by omega : (n + n) % 2 = 0)]
    have h : (n + n) / 2 = n := by omega
    rw [h]
    simp
  | cons c t ih =>
    intro tail cur n
    by_cases hb : c = '\\'
    · subst hb
      rw [escBody_bs, List.cons_append, decodeLoop_bs, ih]
      congr 1
      simp [List.replicate_succ', List.append_assoc]
    · by_cases hq : c = '"'
      · subst hq
        rw [escBody_quote]
        simp only [List.cons_append, List.append_assoc]
        rw [decode_run, decodeLoop_quote_odd _ _ _ _ _ (by omega : (n + (n + 1)) % 2 = 1)]
        have h : (n + (n + 1)) / 2 = n := by omega
        rw [h, ih]
        congr 1
        simp [List.append_assoc]
      · have hws : ¬((c = ' ' ∨ c = '\t') ∧ true = false) := by simp
        rw [escBody_other c t n hb hq, List.cons_append,
          decodeLoop_other c _ _ _ _ _ hb hq hws, ih]
        congr 1
        simp [List.append_assoc]

theorem decode_verbatim : ∀ (a tail cur : WStr) (p : Nat),
    (∀ c ∈ a, c ≠ ' ' ∧ c ≠ '\t' ∧ c ≠ '"') →
    ∃ cur2 p2, decodeLoop (a ++ tail) cur p false true = decodeLoop tail cur2 p2 false true ∧
      cur2 ++ List.replicate p2 '\\' = cur ++ List.replicate p '\\' ++ a := by
  intro a
  induction a with
  | nil => intro tail cur p _; exact ⟨cur, p, rfl, by simp⟩
  | cons c t ih =>
    intro tail cur p hgood
    have hc := hgood c (List.mem_cons_self _ _)
    by_cases hb : c = '\\'
    · subst hb
      rw [List.cons_append, decodeLoop_bs]
      obtain ⟨cur2, p2, heq, hinv⟩ :=
        ih tail cur (p + 1) (fun d hd => hgood d (List.mem_cons_of_mem _ hd))
      refine ⟨cur2, p2, heq, ?_⟩
      rw [hinv]
      simp [List.replicate_succ', List.append_assoc]
    · have hws : ¬((c = ' ' ∨ c = '\t') ∧ false = false) := by
        simp [hc.1, hc.2.1]
      rw [List.cons_append, decodeLoop_other c _ _ _ _ _ hb hc.2.2 hws]
      obtain ⟨cur2, p2, heq, hinv⟩ :=
        ih tail (cur ++ List.replicate p '\\' ++ [c]) 0
          (fun d hd => hgood d (List.mem_cons_of_mem _ hd))
      refine ⟨cur2, p2, heq, ?_⟩
      rw [hinv]
      simp [List.append_assoc]

theorem decode_encode_aux : ∀ args : List WStr, (∀ a ∈ args, '\t' ∉ a) →
    decodeLoop (EncodeCommandLineWin32 args) [] 0 false false = args ∧
    ∀ (cur : WStr) (p : Nat), decodeLoop (encodeTailWin32 args) cur p false true
      = (cur ++ List.replicate p '\\') :: args := by
  intro args
  induction args with
  | nil =>
    intro _
    exact ⟨rfl, fun cur p => by rw [encodeTailWin32, decodeLoop_nil]⟩
  | cons a rest ih =>
    intro hgood
    have hrest := ih (fun x hx => hgood x (List.mem_cons_of_mem _ hx))
    have ha : '\t' ∉ a := hgood a (List.mem_cons_self _ _)
    have hfresh : decodeLoop (EncodeCommandLineWin32 (a :: rest)) [] 0 false false = a :: rest := by
      rw [EncodeCommandLineWin32]
      by_cases hv : a ≠ [] ∧ hitsSet kEscapeSetWin32 a = false
      · rw [encodeArgWin32, if_pos hv]
        have hnotin : ∀ c ∈ a, c ∉ kEscapeSetWin32 := by
          intro c hcmem hmem
          have htrue : hitsSet kEscapeSetWin32 a = true := by
            simp only [hitsSet, List.any_eq_true, decide_eq_true_eq]
            exact ⟨c, hcmem, hmem⟩
          rw [hv.2] at htrue
          cases htrue
        have hchars : ∀ c ∈ a, c ≠ ' ' ∧ c ≠ '\t' ∧ c ≠ '"' := by
          intro c hcmem
          refine ⟨?_, ?_, ?_⟩
          · intro h; exact hnotin c hcmem (by rw [h]; decide)
          · intro h; rw [h] at hcmem; exact ha hcmem
          · intro h; exact hnotin c hcmem (by rw [h]; decide)
        obtain ⟨c0, t0, rfl⟩ : ∃ c0 t0, a = c0 :: t0 := by
          cases a with
          | nil => exact absurd rfl hv.1
          | cons c0 t0 => exact ⟨c0, t0, rfl⟩
        have hc0 := hchars c0 (List.mem_cons_self _ _)
        have ht0 : ∀ c ∈ t0, c ≠ ' ' ∧ c ≠ '\t' ∧ c ≠ '"' :=
          fun d hd => hchars d (List.mem_cons_of_mem _ hd)
        by_cases hb : c0 = '\\'
        · subst hb
          rw [List.cons_append, decodeLoop_bs]
          obtain ⟨cur2, p2, heq, hinv⟩ := decode_verbatim t0 (encodeTailWin32 rest) [] 1 ht0
          rw [heq, hrest.2 cur2 p2, hinv]
          simp
        · have hws : ¬((c0 = ' ' ∨ c0 = '\t') ∧ false = false) := by
            simp [hc0.1, hc0.2.1]
          rw [List.cons_append, decodeLoop_other c0 _ _ _ _ _ hb hc0.2.2 hws]
          obtain ⟨cur2, p2, heq, hinv⟩ :=
            decode_verbatim t0 (encodeTailWin32 rest) ([] ++ List.replicate 0 '\\' ++ [c0]) 0 ht0
          rw [heq, hrest.2 cur2 p2, hinv]
          simp
      · rw [encodeArgWin32, if_neg hv, EscapeArgWin32, escapeLoop_eq_escBody, List.nil_append]
        have hshape : ('"' :: (escBody a 0 ++ ['"'])) ++ encodeTailWin32 rest
            = '"' :: (escBody a 0 ++ '"' :: encodeTailWin32 rest) := by
          simp [List.append_assoc]
        rw [hshape, decodeLoop_quote_even _ _ _ _ _ (by omega : 0 % 2 = 0)]
        have hcur : ([] : WStr) ++ List.replicate (0 / 2) '\\' = [] := by simp
        rw [hcur]
        simp only [Bool.not_false]
        rw [decode_escBody a _ [] 0, hrest.2]
        simp
    refine ⟨hfresh, fun cur p => ?_⟩
    have hfresh2 : decodeLoop (encodeArgWin32 a ++ encodeTailWin32 rest) [] 0 false false
        = a :: rest := hfresh
    rw [encodeTailWin32]
    simp only [List.cons_append]
    rw [decodeLoop_space, hfresh2]

/-- C1 counterexample: the argument `a<TAB>b` contains no line-terminator
character, yet the native encoder emits it verbatim (tab is not in its
escape set) and the native-argv grammar splits on the tab, so the decoded
list is `[a, b]`, not the original. -/
theorem encodeWin32_roundtrip_tab_cex :
    ('\n' ∉ "a\tb".data ∧ '\r' ∉ "a\tb".data) ∧
    decodeCommandLineWin32 (EncodeCommandLineWin32 ["a\tb".data]) = ["a".data, "b".data] ∧
    decodeCommandLineWin32 (EncodeCommandLineWin32 ["a\tb".data]) ≠ ["a\tb".data] := by
  decide

/-- C1 (amended): for every argument list whose strings contain no
line-terminator characters and no tab characters, decoding the output of
`EncodeCommandLineWin32` under the native-argv grammar yields exactly the
original list — including empty strings, embedded spaces, trailing
backslashes, literal double quotes, and mixed backslash runs. -/
theorem encodeWin32_roundtrip : ∀ args : List WStr,
    (∀ a ∈ args, '\t' ∉ a ∧ '\n' ∉ a ∧ '\r' ∉ a) →
    decodeCommandLineWin32 (EncodeCommandLineWin32 args) = args := by
  intro args h
  exact (decode_encode_aux args (fun a ha => (h a ha).1)).1

/-- C1 witness: the round trip applied to a list exercising spaces, an
empty string, a trailing backslash, and embedded literal quotes. -/
theorem encodeWin32_roundtrip_witness :
    (∀ a ∈ ([ "a b".data, [], "x\\".data, "he said \"hi\"".data ] : List WStr),
      '\t' ∉ a ∧ '\n' ∉ a ∧ '\r' ∉ a) ∧
    decodeCommandLineWin32
        (EncodeCommandLineWin32 [ "a b".data, [], "x\\".data, "he said \"hi\"".data ])
      = [ "a b".data, [], "x\\".data, "he said \"hi\"".data ] :=
  ⟨by decide, encodeWin32_roundtrip _ (by decide)⟩

/-- C4 counterexample: the encoded command line for
`["cd", "C:\Program Files"]` is not the spec's
`cmd.exe /D /C cd "C:\Program Files"`: the caret pass also escapes the two
double quotes produced by the native quoting. -/
theorem encodeCmd_cd_cex :
    EncodeCommandLineCmd ["cd".data, "C:\\Program Files".data]
      ≠ "cmd.exe /D /C cd \"C:\\Program Files\"".data := by decide

/-- C4 (amended): encoding `["cd", "C:\Program Files"]` produces the shell
stub, the unmodified builtin name, a space, and the native-quoted second
argument with its surrounding double quotes caret-escaped:
`cmd.exe /D /C cd ^"C:\Program Files^"`. -/
theorem encodeCmd_cd_program_files :
    EncodeCommandLineCmd ["cd".data, "C:\\Program Files".data]
      = "cmd.exe /D /C cd ^\"C:\\Program Files^\"".data := by decide

/-- C7: native-encoding a single empty argument always takes the quoted
path and yields exactly the two-character token `""`. -/
theorem encodeWin32_single_empty :
    EncodeCommandLineWin32 [([] : WStr)] = ['"', '"'] ∧
    encodeArgWin32 [] = EscapeArgWin32 [] := by decide

/-! ## The shell encoder's shape -/

theorem mapWithIndex_shift : ∀ (rest : List WStr) (i : Nat),
    (mapWithIndex (fun j a => ' ' :: caretArg (j == 0) (cmdChooseArg a)) (i + 1) rest).flatten
      = encodeTailCmd false rest := by
  intro rest
  induction rest with
  | nil => intro i; rfl
  | cons a t ih =>
    intro i
    rw [mapWithIndex, encodeTailCmd]
    simp only [List.flatten_cons]
    rw [ih]
    have h : ((i + 1) == 0) = false := by simp
    rw [h]

/-- C3 counterexample: for the builtin invocation `["echo", "~"]` the code
emits `~` verbatim (its verbatim test uses only space and double quote),
while quoting "via the native rule" — whose escape set contains `~` —
would produce the caret-escaped quoted token `^"~^"`. -/
theorem encodeCmd_native_rule_cex :
    classify "echo".data = TargetKind.ShellBuiltin ∧
    EncodeCommandLineCmd ["echo".data, "~".data] = "cmd.exe /D /C echo ~".data ∧
    specEncodeForShellNativeRule ["echo".data, "~".data]
      = "cmd.exe /D /C echo ^\"~^\"".data ∧
    EncodeCommandLineCmd ["echo".data, "~".data]
      ≠ specEncodeForShellNativeRule ["echo".data, "~".data] := by
  decide

/-- C3 (amended): for a shell-builtin argument list, the shell encoder is
the stub `cmd.exe /D /C` followed, for each argument, by a space and the
caret-escaped form (metacharacters always, spaces in the first argument
only) of the argument quoted by the native quoting transform gated on the
reduced special set (space and double quote only, not the glob
characters). -/
theorem encodeCmd_shape : ∀ (a : WStr) (rest : List WStr),
    classify a = TargetKind.ShellBuiltin →
    EncodeCommandLineCmd (a :: rest) = specEncodeForShellCmdRule (a :: rest) := by
  intro a rest _
  rw [EncodeCommandLineCmd, specEncodeForShellCmdRule, mapWithIndex, encodeTailCmd]
  simp only [List.flatten_cons]
  rw [mapWithIndex_shift rest 0]
  simp [List.cons_append]

/-- C3 witness: the amended statement applied to `["cd", "a b"]`. -/
theorem encodeCmd_shape_witness :
    classify "cd".data = TargetKind.ShellBuiltin ∧
    EncodeCommandLineCmd ["cd".data, "a b".data]
      = specEncodeForShellCmdRule ["cd".data, "a b".data] :=
  ⟨by decide, encodeCmd_shape "cd".data ["a b".data] (by decide)⟩

/-! ## The supervisor's outcomes -/

/-- C5: when everything up to the spawn succeeds and the spawn fails, the
not-found cause yields the one-line diagnostic naming the program and
return value 127 without fatal termination; any other cause is fatal. -/
theorem callProcess_spawn_failure : ∀ (env : OsEnv) (a : WStr) (rest : List WStr),
    env.queryOk = true → env.queryLenOk = true → env.jobNonNull = true →
    env.setInfoOk = true → env.ctrlOk = true → env.spawnOk = false →
    (env.spawnFileNotFound = true →
      CallProcess env (a :: rest) = .notFound a ∧
      returnValue (CallProcess env (a :: rest)) = 127 ∧
      isFatal (CallProcess env (a :: rest)) = false ∧
      stderrOf (CallProcess env (a :: rest)) = a ++ ": not found\n".data) ∧
    (env.spawnFileNotFound = false →
      CallProcess env (a :: rest) = .fatal "Unable to create process".data ∧
      isFatal (CallProcess env (a :: rest)) = true ∧
      returnValue (CallProcess env (a :: rest)) = 1) := by
  intro env a rest h1 h2 h3 h4 h5 h6
  constructor
  · intro h7
    have hcp : CallProcess env (a :: rest) = .notFound a := by
      simp [CallProcess, h1, h2, h3, h4, h5, h6, h7]
    exact ⟨hcp, by rw [hcp]; rfl, by rw [hcp]; rfl, by rw [hcp]; rfl⟩
  · intro h7
    have hcp : CallProcess env (a :: rest) = .fatal "Unable to create process".data := by
      simp [CallProcess, h1, h2, h3, h4, h5, h6, h7]
    exact ⟨hcp, by rw [hcp]; rfl, by rw [hcp]; rfl⟩

/-- C5 witness: a spawn failure with the not-found cause returns 127
naming the program, and one with another cause is fatal. -/
theorem callProcess_spawn_failure_witness :
    CallProcess ⟨true, true, true, true, true, false, true, true, 0⟩ ["nope".data]
      = ProcOutcome.notFound "nope".data ∧
    returnValue (CallProcess ⟨true, true, true, true, true, false, true, true, 0⟩ ["nope".data])
      = 127 ∧
    CallProcess ⟨true, true, true, true, true, false, false, true, 0⟩ ["nope".data]
      = ProcOutcome.fatal "Unable to create process".data :=
  ⟨((callProcess_spawn_failure ⟨true, true, true, true, true, false, true, true, 0⟩
      "nope".data [] rfl rfl rfl rfl rfl rfl).1 rfl).1,
   ((callProcess_spawn_failure ⟨true, true, true, true, true, false, true, true, 0⟩
      "nope".data [] rfl rfl rfl rfl rfl rfl).1 rfl).2.1,
   ((callProcess_spawn_failure ⟨true, true, true, true, true, false, false, true, 0⟩
      "nope".data [] rfl rfl rfl rfl rfl rfl).2 rfl).1⟩

/-- C8: with an empty argument list, `CallProcess` is fatal independently
of the OS oracle (so nothing is classified, encoded, or spawned): the
diagnostic `FATAL: No arguments specified` goes to standard error and the
launcher terminates with status 1. -/
theorem callProcess_empty_fatal : ∀ env : OsEnv,
    CallProcess env [] = .fatal "No arguments specified".data ∧
    stderrOf (CallProcess env []) = "FATAL: No arguments specified\n".data ∧
    returnValue (CallProcess env []) = 1 ∧
    isFatal (CallProcess env []) = true := by
  intro env
  exact ⟨rfl, rfl, rfl, rfl⟩

/-- C8 witness: the fatal empty-argv outcome at a concrete oracle. -/
theorem callProcess_empty_fatal_witness :
    CallProcess ⟨false, false, false, false, false, false, false, false, 7⟩ []
      = ProcOutcome.fatal "No arguments specified".data :=
  (callProcess_empty_fatal ⟨false, false, false, false, false, false, false, false, 7⟩).1

/-! ## Classification is case-insensitive -/

theorem wcsicmpLt_eq : ∀ a b : WStr,
    wcsicmpLt a b = wlowerLt (a.map wlower) (b.map wlower) := by
  intro a
  induction a with
  | nil => intro b; cases b <;> rfl
  | cons x xs ih =>
    intro b
    cases b with
    | nil => rfl
    | cons y ys =>
      by_cases h : wlower x = wlower y
      · simp [wcsicmpLt, wlowerLt, List.map_cons, h, ih]
      · simp [wcsicmpLt, wlowerLt, List.map_cons, h, ih]

/-- C6: the builtin table is sorted for the case-insensitive ordering;
classification is invariant under case changes (strings with the same
lower-cased image classify identically); `CD` and `cd` are shell builtins
and `notepad` is a native executable. -/
theorem classify_spec :
    isSortedBy wcsicmpLt kCmdBuiltins = true ∧
    (∀ s t : WStr, s.map wlower = t.map wlower → classify s = classify t) ∧
    classify "CD".data = TargetKind.ShellBuiltin ∧
    classify "cd".data = TargetKind.ShellBuiltin ∧
    classify "notepad".data = TargetKind.NativeExecutable := by
  refine ⟨by decide, ?_, by decide, by decide, by decide⟩
  intro s t h
  have hib : IsCmdBuiltin s = IsCmdBuiltin t := by
    rw [IsCmdBuiltin, IsCmdBuiltin]
    congr 1
    funext b
    rw [wcsicmpLt_eq b s, wcsicmpLt_eq b t, wcsicmpLt_eq s b, wcsicmpLt_eq t b, h]
  rw [classify, classify, hib]

/-- C6 witness: the case-invariance applied to `CD` and `cd`. -/
theorem classify_spec_witness :
    "CD".data.map wlower = "cd".data.map wlower ∧
    classify "CD".data = classify "cd".data :=
  ⟨by decide, classify_spec.2.1 "CD".data "cd".data (by decide)⟩

/-! ## Path splitting -/

/-- C9: `SplitDrive` partitions its input: the two returned components
concatenate to exactly the original path. -/
theorem splitDrive_append : ∀ path : WStr,
    (SplitDrive path).1 ++ (SplitDrive path).2 = path := by
  intro path
  unfold SplitDrive
  split
  · split
    · split
      · simp
      · split
        · simp
        · split
          · simp
          · simp [List.take_append_drop]
    · split
      · simp [List.take_append_drop]
      · simp
  · simp

/-- C9 witness: the partition property at a path mixing both slash
kinds. -/
theorem splitDrive_append_witness :
    (SplitDrive "C:/a\\b".data).1 ++ (SplitDrive "C:/a\\b".data).2 = "C:/a\\b".data :=
  splitDrive_append "C:/a\\b".data

theorem drop_length_sub_takeWhile (q : Char → Bool) (p : WStr) :
    p.drop (p.length - (p.reverse.takeWhile q).length)
      = (p.reverse.takeWhile q).reverse := by
  obtain ⟨t, ht⟩ : ∃ t, p.reverse.takeWhile q = t := ⟨_, rfl⟩
  obtain ⟨r, hr⟩ : ∃ r, p.reverse.dropWhile q = r := ⟨_, rfl⟩
  have hp : p = r.reverse ++ t.reverse := by
    rw [← List.reverse_append, ← ht, ← hr,
      List.takeWhile_append_dropWhile q p.reverse, List.reverse_reverse]
  rw [ht, hp]
  have h2 : t.length = t.reverse.length := by simp
  have h : (r.reverse ++ t.reverse).length - t.reverse.length = r.reverse.length := by simp
  rw [h2, h]
  exact List.drop_left _ _

/-- C10: the tail component returned by `SplitPath` contains no path
separator: the split point sits beyond the last separator of the
post-drive part. -/
theorem splitPath_tail_no_sep : ∀ (path : WStr) (c : Char),
    c ∈ (SplitPath path).2 → isSep c = false := by
  intro path c hc
  have h2 : (SplitPath path).2
      = ((SplitDrive path).2.reverse.takeWhile fun x => !isSep x).reverse :=
    drop_length_sub_takeWhile _ _
  rw [h2, List.mem_reverse] at hc
  have hq := List.mem_takeWhile_imp hc
  simpa using hq

/-- C10 witness: the tail of `SplitPath "a\b"` is `b`, separator-free. -/
theorem splitPath_tail_no_sep_witness :
    'b' ∈ (SplitPath "a\\b".data).2 ∧ isSep 'b' = false :=
  ⟨by decide, splitPath_tail_no_sep "a\\b".data 'b' (by decide)⟩

end Phutil
